import Mathlib

/-!
Verification development for the normalization-constrained feedforward stack
(`nff.py`): `Scale`, `Residual`, `NormLinear`, `nFeedforward`, `nFeedforwards`.

Tensors are modelled as lists of reals (a single feature-axis vector), and
batched tensors as functions from a multi-index over the leading batch
dimensions to such vectors.  `F.normalize` is modelled faithfully including
its denominator clamp `max (norm) eps` with the default `eps = 1e-12`.
Random parameter initialization (`nn.Linear`'s weight fill) is modelled by an
arbitrary entry generator `ℕ → ℕ → ℝ` supplied to the constructor; the
constructor builds the `[dim_out, dim_in]`-shaped matrix from it exactly as
`nn.Linear(dim, dim_out, bias=False)` allocates it.
-/

noncomputable section

namespace XMlps

/-- A weight matrix, stored as its list of rows (torch layout `[dim_out, dim_in]`). -/
abbrev Mat := List (List ℝ)

/-- The default `eps` of `torch.nn.functional.normalize`. -/
def eps : ℝ := 1e-12

/-- Sum of squares of the entries of a vector. -/
def sqSum (l : List ℝ) : ℝ := (l.map (fun a => a ^ 2)).sum

/-- Euclidean (L2) norm of a vector. -/
def vnorm (l : List ℝ) : ℝ := Real.sqrt (sqSum l)

/-- `F.normalize(t, dim=-1)` on a single vector: divide by the L2 norm clamped
below by `eps` (torch clamps the denominator, it does not special-case zero). -/
def l2normList (l : List ℝ) : List ℝ := l.map (fun a => a / max (vnorm l) eps)

/-- Elementwise product of two vectors (`*` on same-shaped tensors). -/
def zipMul (a b : List ℝ) : List ℝ := List.zipWith (fun x y => x * y) a b

/-- `torch.lerp(input, end, weight) = input + weight * (end - input)`, elementwise. -/
def lerp : List ℝ → List ℝ → List ℝ → List ℝ
  | a :: as, b :: bs, t :: ts => (a + t * (b - a)) :: lerp as bs ts
  | _, _, _ => []

/-- Map a position-dependent function over a list, starting the position count
at `j`.  Used to express per-column operations on a row. -/
def mapFrom (g : ℕ → ℝ → ℝ) : ℕ → List ℝ → List ℝ
  | _, [] => []
  | j, a :: r => g j a :: mapFrom g (j + 1) r

/-- Column `j` of a matrix (entries of rows shorter than `j+1` read as `0`). -/
def getCol (W : Mat) (j : ℕ) : List ℝ := W.map (fun r => r.getD j 0)

/-- L2 norm of column `j` of a matrix. -/
def colNorm (W : Mat) (j : ℕ) : ℝ := vnorm (getCol W j)

/-- `F.normalize(W, dim=-1)` on a 2-D weight: every row unit-normalized. -/
def normRows (W : Mat) : Mat := W.map l2normList

/-- `F.normalize(W, dim=0)` on a 2-D weight: every column divided by its
clamped column norm. -/
def normCols (W : Mat) : Mat :=
  W.map (mapFrom (fun j a => a / max (colNorm W j) eps) 0)

/-- The `L2Norm(dim = -1 if norm_dim_in else 0)` module applied to a weight. -/
def normW (norm_dim_in : Bool) (W : Mat) : Mat :=
  if norm_dim_in then normRows W else normCols W

/-- Build a `[rows, cols]` matrix from an entry generator (the model of
`nn.Linear`'s allocation of its weight, with the random fill abstracted as
the generator `f`). -/
def mkMat (rows cols : ℕ) (f : ℕ → ℕ → ℝ) : Mat :=
  (List.range rows).map (fun i => (List.range cols).map (f i))

/-- Dot product of two vectors. -/
def dot (a b : List ℝ) : ℝ := (zipMul a b).sum

/-- `nn.Linear` without bias: `x ↦ W · x` (one output entry per weight row). -/
def linearFwd (W : Mat) (x : List ℝ) : List ℝ := W.map (fun r => dot r x)

/-- The logistic sigmoid. -/
def sigmoid (z : ℝ) : ℝ := 1 / (1 + Real.exp (-z))

/-- `F.silu(z) = z * sigmoid(z)`. -/
def silu (z : ℝ) : ℝ := z * sigmoid z

/-- The `Scale` module: a learned vector plus the fixed factor `init / scale`
computed at construction. -/
structure Scale where
  dim : ℕ
  scaleParam : List ℝ
  forwardScale : ℝ

/-- `Scale.__init__(dim, init, scale)`: the learned vector starts as
`torch.ones(dim) * scale` and `forward_scale = init / scale`. -/
def Scale.init (dim : ℕ) (i s : ℝ) : Scale :=
  { dim := dim, scaleParam := List.replicate dim s, forwardScale := i / s }

/-- `Scale.forward()`: the learned vector times `forward_scale`. -/
def Scale.forward (s : Scale) : List ℝ :=
  s.scaleParam.map (fun a => a * s.forwardScale)

/-- The `Scale(dim, init, scale)` constructor call: Python's
`forward_scale = init / scale` raises `ZeroDivisionError` when `scale == 0`
(float division by zero raises), so construction aborts and no object exists
(modelled as `none`); otherwise the fields are assigned as in `Scale.init`. -/
def Scale.initChecked (dim : ℕ) (i s : ℝ) : Option Scale :=
  if s = 0 then none else some (Scale.init dim i s)

/-- The `Residual` module, generic over the wrapped inner module's type
(Python duck-typing of `self.fn`). -/
structure Residual (α : Type) where
  fn : α
  branch_scale : Scale

/-- `Residual.__init__(fn, dim, init, scale)`, with `scale` defaulting to
`dim ** -0.5`. -/
def Residual.init {α : Type} (fn : α) (dim : ℕ) (i : ℝ) (scale : Option ℝ) :
    Residual α :=
  { fn := fn, branch_scale := Scale.init dim i (scale.getD ((dim : ℝ) ^ (-(1 / 2) : ℝ))) }

/-- `Residual.forward` on the plain-tensor path: unit-normalize the inner
output, lerp it into the input with the learned step, and unit-normalize the
blend.  `call` is how the wrapped module is invoked (Python's `self.fn(x)`). -/
def Residual.forward {α : Type} (call : α → List ℝ → List ℝ) (r : Residual α)
    (x : List ℝ) : List ℝ :=
  l2normList (lerp x (l2normList (call r.fn x)) r.branch_scale.forward)

/-- `Residual.forward` on the tuple-output path: the same update is applied to
the first component and the rest is passed through untouched. -/
def Residual.forwardTup {α β : Type} (call : α → List ℝ → List ℝ × β)
    (r : Residual α) (x : List ℝ) : List ℝ × β :=
  let ob := call r.fn x
  (l2normList (lerp x (l2normList ob.1) r.branch_scale.forward), ob.2)

/-- The `NormLinear` module: a bias-free linear map whose weight is kept on
the unit hypersphere, either structurally (`parametrize = true`: the weight
used by `forward` is the normalized view of the raw weight) or manually
(`parametrize = false`: `forward` reads the raw weight, which
`norm_weights_` renormalizes in place). -/
structure NormLinear where
  dim : ℕ
  dim_out : ℕ
  norm_dim_in : Bool
  parametrize : Bool
  weight : Mat

/-- `NormLinear.norm_weights_()`.  In parametrize mode the normalized view
`self.weight` is copied into the raw parameter; in manual mode the raw weight
is overwritten with `self.l2norm(self.weight)`.  Both branches store
`normW norm_dim_in weight` into the raw weight. -/
def NormLinear.normWeights (nl : NormLinear) : NormLinear :=
  if nl.parametrize then
    { nl with weight := normW nl.norm_dim_in nl.weight }
  else
    { nl with weight := normW nl.norm_dim_in nl.weight }

/-- `NormLinear.__init__(dim, dim_out, norm_dim_in, parametrize)`: allocate the
`[dim_out, dim]` weight from the generator `w0` and immediately call
`norm_weights_()` (as the constructor does). -/
def NormLinear.init (dim dim_out : ℕ) (norm_dim_in parametrize : Bool)
    (w0 : ℕ → ℕ → ℝ) : NormLinear :=
  NormLinear.normWeights
    { dim := dim, dim_out := dim_out, norm_dim_in := norm_dim_in,
      parametrize := parametrize, weight := mkMat dim_out dim w0 }

/-- The weight actually used by `forward`: the parametrized (normalized) view
in parametrize mode, the raw weight in manual mode. -/
def NormLinear.effWeight (nl : NormLinear) : Mat :=
  if nl.parametrize then normW nl.norm_dim_in nl.weight else nl.weight

/-- `NormLinear.forward(x) = self.linear(x)`. -/
def NormLinear.forward (nl : NormLinear) (x : List ℝ) : List ℝ :=
  linearFwd nl.effWeight x

/-- Python's `int()` applied to a rational value: truncation toward zero. -/
def pyInt (q : ℚ) : ℤ := if 0 ≤ q then ⌊q⌋ else -⌊-q⌋

/-- The gated feedforward unit `nFeedforward`. -/
structure nFeedforward where
  dim : ℕ
  dim_inner : ℕ
  to_hidden : NormLinear
  to_gate : NormLinear
  hidden_scale : Scale
  gate_scale : Scale
  to_out : NormLinear

/-- `nFeedforward.__init__`: `dim_inner = int(dim * expand_factor * 2 / 3)`,
two `dim → dim_inner` NormLinears (hidden, gate), two `Scale(dim_inner)`s and
one `dim_inner → dim` NormLinear with `norm_dim_in=False`; every NormLinear
gets `parametrize = not manual_norm_weights`.  `wh, wg, wo` generate the raw
weight entries. -/
def nFeedforward.init (dim : ℕ) (expand_factor : ℚ) (manual_norm_weights : Bool)
    (s_hidden_init s_hidden_scale s_gate_init s_gate_scale : ℝ)
    (wh wg wo : ℕ → ℕ → ℝ) : nFeedforward :=
  let dim_inner : ℕ := (pyInt ((dim : ℚ) * expand_factor * 2 / 3)).toNat
  { dim := dim
    dim_inner := dim_inner
    to_hidden := NormLinear.init dim dim_inner true (!manual_norm_weights) wh
    to_gate := NormLinear.init dim dim_inner true (!manual_norm_weights) wg
    hidden_scale := Scale.init dim_inner s_hidden_init s_hidden_scale
    gate_scale := Scale.init dim_inner s_gate_init s_gate_scale
    to_out := NormLinear.init dim_inner dim false (!manual_norm_weights) wo }

/-- `nFeedforward.forward`, statement for statement from the source:
`hidden, gate = to_hidden(x), to_gate(x)`; `hidden *= hidden_scale()`;
`gate *= gate_scale() * dim ** 0.5`; `hidden = F.silu(gate) * hidden`;
`return to_out(hidden)`. -/
def nFeedforward.forward (ff : nFeedforward) (x : List ℝ) : List ℝ :=
  let hidden := ff.to_hidden.forward x
  let gate := ff.to_gate.forward x
  let hidden := zipMul hidden ff.hidden_scale.forward
  let gate := (zipMul gate ff.gate_scale.forward).map
    (fun a => a * (ff.dim : ℝ) ^ ((0.5 : ℝ)))
  let hidden := zipMul (gate.map silu) hidden
  ff.to_out.forward hidden

/-- A Python value that is either a plain scalar of type `α` or a tuple of
such scalars (the duck typing `cast_tuple` dispatches on). -/
inductive PyVal (α : Type) where
  | scalar (v : α)
  | tup (l : List α)

/-- `cast_tuple(t, length)`: a tuple is kept as is, a scalar is broadcast to
`(t,) * length`; then `assert len(out) == length` (failure modelled as
`none`). -/
def castTuple {α : Type} (t : PyVal α) (length : ℕ) : Option (List α) :=
  let out := match t with
    | .tup l => l
    | .scalar v => List.replicate length v
  if out.length = length then some out else none

/-- The `nFeedforwards` stack. -/
structure nFeedforwards where
  dim : ℕ
  depth : ℕ
  layers : List (Residual nFeedforward)
  input_preserve_magnitude : Bool
  constant_shift : ℝ
  proj_in : Option (NormLinear × Scale)
  proj_out : Option (NormLinear × Scale)

/-- The stack record built by `nFeedforwards.__init__` once all
`cast_tuple` asserts have succeeded and produced the six per-layer
hyperparameter lists (the two `alpha_attn_*` lists are cast as well, lines
217–228 of the source, but are never read afterwards: they do not appear
here).  Each layer is an `nFeedforward` wrapped in a `Residual` with
`alpha_ff_init_` / `alpha_ff_scale_` falling back to `alpha_init` (itself
defaulting to `1/depth`) and `dim ** -0.5`.  Note: the source constructs
`proj_in` with the plain `NormLinear` class (not the `NormLinear_` partial
that carries `parametrize = not manual_norm_weights`), so `proj_in` always
has `parametrize = True`; `proj_out` does use `NormLinear_`. -/
def mkStack (dim depth : ℕ) (dim_in dim_out : Option ℕ)
    (ff_expand_factor : ℚ) (input_preserve_magnitude : Bool)
    (constant_shift : ℝ) (manual_norm_weights : Bool)
    (alpha_init : Option ℝ)
    (afi afs : List (Option ℝ)) (shi shs sgi sgs : List ℝ)
    (wh wg wo : ℕ → ℕ → ℕ → ℝ) (wpin wpout : ℕ → ℕ → ℝ) : nFeedforwards :=
  let alphaI : ℝ := alpha_init.getD (1 / (depth : ℝ))
  { dim := dim
    depth := depth
    layers := (List.range depth).map (fun i =>
      Residual.init
        (nFeedforward.init dim ff_expand_factor manual_norm_weights
          (shi.getD i 1) (shs.getD i 1) (sgi.getD i 1) (sgs.getD i 1)
          (wh i) (wg i) (wo i))
        dim ((afi.getD i none).getD alphaI)
        (some ((afs.getD i none).getD ((dim : ℝ) ^ (-(1 / 2) : ℝ)))))
    input_preserve_magnitude := input_preserve_magnitude
    constant_shift := constant_shift
    proj_in :=
      if dim_in.isSome || input_preserve_magnitude then
        some
          (NormLinear.init
            (dim_in.getD dim + (if input_preserve_magnitude then 1 else 0))
            dim false true wpin,
           Scale.init dim 1 1)
      else none
    proj_out := dim_out.map (fun dOut =>
      (NormLinear.init dim dOut true (!manual_norm_weights) wpout,
       Scale.init dOut 1 ((dim : ℝ) ^ (-(1 / 2) : ℝ)))) }

/-- `nFeedforwards.__init__`.  The eight per-layer hyperparameters are run
through `cast_tuple(·, depth)` in source order (any failing assert aborts
construction, modelled as `none`); the successful casts feed `mkStack`.  The
`alpha_attn_init` / `alpha_attn_scale` casts are performed but their results
are discarded, exactly as the source binds and then never uses them.
`wh, wg, wo` generate the per-layer raw weights, `wpin, wpout` the projection
weights. -/
def nFeedforwards.init (dim depth : ℕ) (dim_in dim_out : Option ℕ)
    (ff_expand_factor : ℚ) (input_preserve_magnitude : Bool)
    (constant_shift : ℝ) (manual_norm_weights : Bool)
    (alpha_init : Option ℝ)
    (alpha_attn_init alpha_attn_scale alpha_ff_init alpha_ff_scale : PyVal (Option ℝ))
    (s_ff_hidden_init s_ff_hidden_scale s_ff_gate_init s_ff_gate_scale : PyVal ℝ)
    (wh wg wo : ℕ → ℕ → ℕ → ℝ) (wpin wpout : ℕ → ℕ → ℝ) :
    Option nFeedforwards :=
  (castTuple alpha_attn_init depth).bind fun _ =>
  (castTuple alpha_attn_scale depth).bind fun _ =>
  (castTuple alpha_ff_init depth).bind fun afi =>
  (castTuple alpha_ff_scale depth).bind fun afs =>
  (castTuple s_ff_hidden_init depth).bind fun shi =>
  (castTuple s_ff_hidden_scale depth).bind fun shs =>
  (castTuple s_ff_gate_init depth).bind fun sgi =>
  (castTuple s_ff_gate_scale depth).bind fun sgs =>
  some (mkStack dim depth dim_in dim_out ff_expand_factor
    input_preserve_magnitude constant_shift manual_norm_weights alpha_init
    afi afs shi shs sgi sgs wh wg wo wpin wpout)

/-- `nFeedforwards.forward`: optional magnitude-preserving pad-and-normalize
(`F.pad(x, (0,1), value=constant_shift)` appends the constant to the feature
axis), optional input projection with its scale followed by `l2norm`, the
residual-wrapped layers in order, and the optional output projection with its
scale (not renormalized). -/
def nFeedforwards.forward (s : nFeedforwards) (x : List ℝ) : List ℝ :=
  let x := if s.input_preserve_magnitude then
      l2normList (x ++ [s.constant_shift])
    else x
  let x := match s.proj_in with
    | some pin => l2normList (zipMul (pin.1.forward x) pin.2.forward)
    | none => x
  let x := s.layers.foldl (fun y r => Residual.forward nFeedforward.forward r y) x
  match s.proj_out with
  | some pout => zipMul (pout.1.forward x) pout.2.forward
  | none => x

/-- Multi-index over a list of leading (batch) dimensions. -/
def MIdx : List ℕ → Type
  | [] => PUnit
  | n :: bs => Fin n × MIdx bs

/-- A batched tensor of batch shape `bs`: one feature vector per multi-index.
All modules act only on the trailing feature axis, i.e. pointwise in the
batch index. -/
def BTensor (bs : List ℕ) : Type := MIdx bs → List ℝ

/-- Batched stack forward: the vector-level forward applied at every batch
index (torch broadcasts the linear maps and elementwise ops over the leading
dimensions). -/
def nFeedforwards.forwardB (s : nFeedforwards) {bs : List ℕ} (t : BTensor bs) :
    BTensor bs :=
  fun i => s.forward (t i)

/-- Column `j` exists in the (possibly ragged) row-list `W`. -/
def occupied (W : Mat) (j : ℕ) : Prop := ∃ r ∈ W, j < r.length

/-- Every row's L2 norm is at least the normalize clamp `eps`. -/
def rowsGe (W : Mat) : Prop := ∀ r ∈ W, eps ≤ vnorm r

/-- Every existing column's L2 norm is at least the normalize clamp `eps`. -/
def colsGe (W : Mat) : Prop := ∀ j, occupied W j → eps ≤ colNorm W j

/-- The slices that `L2Norm(dim = -1 if norm_dim_in else 0)` normalizes all
have norm at least `eps`. -/
def slicesGe (norm_dim_in : Bool) (W : Mat) : Prop :=
  if norm_dim_in then rowsGe W else colsGe W

/-- Every row has unit L2 norm. -/
def rowsUnit (W : Mat) : Prop := ∀ r ∈ W, vnorm r = 1

/-- Every existing column has unit L2 norm. -/
def colsUnit (W : Mat) : Prop := ∀ j, occupied W j → colNorm W j = 1

/-- The slices selected by `norm_dim_in` (rows / columns) all have unit
L2 norm. -/
def slicesUnit (norm_dim_in : Bool) (W : Mat) : Prop :=
  if norm_dim_in then rowsUnit W else colsUnit W

/-- The feedforward formula as the specification words it:
`hidden = NormLinear_hidden(x) * Scale_hidden()`;
`gate = NormLinear_gate(x) * Scale_gate() * sqrt(dim)`;
`output = NormLinear_out(silu(gate) * hidden)`. -/
def nFeedforwardSpec (ff : nFeedforward) (x : List ℝ) : List ℝ :=
  let hidden := zipMul (ff.to_hidden.forward x) ff.hidden_scale.forward
  let gate := (zipMul (ff.to_gate.forward x) ff.gate_scale.forward).map
    (fun a => a * Real.sqrt (ff.dim : ℝ))
  ff.to_out.forward (zipMul (gate.map silu) hidden)

/-- The hyperparameter is an explicit tuple whose length differs from `n`. -/
def PyVal.badLen {α : Type} (t : PyVal α) (n : ℕ) : Prop :=
  ∃ l, t = PyVal.tup l ∧ l.length ≠ n

/-- Shape bookkeeping for a constructed residual layer: its inner block maps
back to `d` features and its step scale is a `d`-vector. -/
def layerDims (d : ℕ) (r : Residual nFeedforward) : Prop :=
  r.fn.to_out.weight.length = d ∧ r.branch_scale.scaleParam.length = d

lemma eps_pos : (0 : ℝ) < eps := by norm_num [eps]

lemma eps_le_one : eps ≤ (1 : ℝ) := by norm_num [eps]

lemma sqSum_nonneg (l : List ℝ) : 0 ≤ sqSum l := by
  refine List.sum_nonneg ?_
  intro a ha
  rcases List.mem_map.mp ha with ⟨b, _, rfl⟩
  positivity

lemma vnorm_nonneg (l : List ℝ) : 0 ≤ vnorm l := Real.sqrt_nonneg _

lemma sqSum_cons (a : ℝ) (t : List ℝ) : sqSum (a :: t) = a ^ 2 + sqSum t := by
  simp [sqSum]

lemma sqSum_map_div (l : List ℝ) (c : ℝ) :
    sqSum (l.map (fun a => a / c)) = sqSum l / c ^ 2 := by
  induction l with
  | nil => simp [sqSum]
  | cons a t ih =>
      simp only [List.map_cons, sqSum_cons, ih, div_pow, div_add_div_same]

lemma vnorm_map_div (l : List ℝ) {c : ℝ} (hc : 0 < c) :
    vnorm (l.map (fun a => a / c)) = vnorm l / c := by
  unfold vnorm
  rw [sqSum_map_div, Real.sqrt_div (sqSum_nonneg l), Real.sqrt_sq hc.le]

lemma max_norm_eps_pos (l : List ℝ) : 0 < max (vnorm l) eps :=
  lt_max_of_lt_right eps_pos

lemma vnorm_l2normList (l : List ℝ) :
    vnorm (l2normList l) = vnorm l / max (vnorm l) eps :=
  vnorm_map_div l (max_norm_eps_pos l)

lemma vnorm_l2normList_eq_one {l : List ℝ} (h : eps ≤ vnorm l) :
    vnorm (l2normList l) = 1 := by
  rw [vnorm_l2normList, max_eq_left h, div_self]
  exact ne_of_gt (lt_of_lt_of_le eps_pos h)

lemma l2normList_of_vnorm_one {l : List ℝ} (h : vnorm l = 1) :
    l2normList l = l := by
  unfold l2normList
  rw [h, max_eq_left eps_le_one]
  simp

lemma l2normList_idem {l : List ℝ} (h : eps ≤ vnorm l) :
    l2normList (l2normList l) = l2normList l :=
  l2normList_of_vnorm_one (vnorm_l2normList_eq_one h)

lemma vnorm_singleton (a : ℝ) : vnorm [a] = |a| := by
  unfold vnorm
  rw [show sqSum [a] = a ^ 2 by simp [sqSum]]
  exact Real.sqrt_sq_eq_abs a

lemma l2normList_singleton (a : ℝ) :
    l2normList [a] = [a / max |a| eps] := by
  simp [l2normList, vnorm_singleton]

lemma length_mapFrom (g : ℕ → ℝ → ℝ) (j : ℕ) (r : List ℝ) :
    (mapFrom g j r).length = r.length := by
  induction r generalizing j with
  | nil => rfl
  | cons a t ih => simp [mapFrom, ih]

lemma getD_mapFrom {g : ℕ → ℝ → ℝ} (hg : ∀ n, g n 0 = 0) (j k : ℕ)
    (r : List ℝ) :
    (mapFrom g j r).getD k 0 = g (j + k) (r.getD k 0) := by
  induction r generalizing j k with
  | nil => simp [mapFrom, hg]
  | cons a t ih =>
      cases k with
      | zero => simp [mapFrom]
      | succ k =>
          have harith : j + 1 + k = j + (k + 1) := by omega
          simp only [mapFrom, List.getD_cons_succ]
          rw [ih (j + 1) k, harith]

lemma mapFrom_congr {g1 g2 : ℕ → ℝ → ℝ} (j : ℕ) (r : List ℝ)
    (h : ∀ k, k < r.length → ∀ a, g1 (j + k) a = g2 (j + k) a) :
    mapFrom g1 j r = mapFrom g2 j r := by
  induction r generalizing j with
  | nil => rfl
  | cons a t ih =>
      simp only [mapFrom, List.cons.injEq]
      constructor
      · simpa using h 0 (by simp) a
      · refine ih (j + 1) ?_
        intro k hk b
        have := h (k + 1) (by simpa using Nat.succ_lt_succ hk) b
        have harith : j + (k + 1) = j + 1 + k := by omega
        rwa [harith] at this

lemma mapFrom_mapFrom (g1 g2 : ℕ → ℝ → ℝ) (j : ℕ) (r : List ℝ) :
    mapFrom g2 j (mapFrom g1 j r) =
      mapFrom (fun n a => g2 n (g1 n a)) j r := by
  induction r generalizing j with
  | nil => rfl
  | cons a t ih => simp [mapFrom, ih]

lemma getCol_normCols (W : Mat) (j : ℕ) :
    getCol (normCols W) j =
      (getCol W j).map (fun a => a / max (colNorm W j) eps) := by
  unfold getCol normCols
  rw [List.map_map, List.map_map]
  refine List.map_congr_left ?_
  intro r _
  simp only [Function.comp]
  rw [getD_mapFrom (fun n => by simp) 0 j r]
  simp

lemma colNorm_normCols (W : Mat) (j : ℕ) :
    colNorm (normCols W) j = colNorm W j / max (colNorm W j) eps := by
  unfold colNorm
  rw [getCol_normCols]
  exact vnorm_map_div _ (lt_max_of_lt_right eps_pos)

lemma occupied_normCols (W : Mat) (j : ℕ) :
    occupied (normCols W) j ↔ occupied W j := by
  unfold occupied normCols
  constructor
  · rintro ⟨r, hr, hlen⟩
    rcases List.mem_map.mp hr with ⟨s, hs, rfl⟩
    exact ⟨s, hs, by rwa [length_mapFrom] at hlen⟩
  · rintro ⟨r, hr, hlen⟩
    exact ⟨mapFrom _ 0 r, List.mem_map.mpr ⟨r, hr, rfl⟩, by rwa [length_mapFrom]⟩

lemma rowsUnit_normRows {W : Mat} (h : rowsGe W) : rowsUnit (normRows W) := by
  intro r hr
  rcases List.mem_map.mp hr with ⟨s, hs, rfl⟩
  exact vnorm_l2normList_eq_one (h s hs)

lemma normRows_normRows {W : Mat} (h : rowsGe W) :
    normRows (normRows W) = normRows W := by
  unfold normRows
  rw [List.map_map]
  refine List.map_congr_left ?_
  intro r hr
  simp only [Function.comp]
  exact l2normList_idem (h r hr)

lemma colsUnit_normCols {W : Mat} (h : colsGe W) : colsUnit (normCols W) := by
  intro j hj
  rw [occupied_normCols] at hj
  rw [colNorm_normCols, max_eq_left (h j hj), div_self]
  exact ne_of_gt (lt_of_lt_of_le eps_pos (h j hj))

lemma normCols_normCols {W : Mat} (h : colsGe W) :
    normCols (normCols W) = normCols W := by
  have hunit := colsUnit_normCols h
  unfold normCols
  rw [List.map_map]
  refine List.map_congr_left ?_
  intro r hr
  simp only [Function.comp]
  rw [mapFrom_mapFrom]
  refine mapFrom_congr 0 r ?_
  intro k hk a
  have hocc : occupied (normCols W) k := by
    rw [occupied_normCols]
    exact ⟨r, hr, hk⟩
  have h1 : colNorm (normCols W) k = 1 := hunit k hocc
  unfold normCols at h1
  simp only [Nat.zero_add]
  rw [h1, max_eq_left eps_le_one, div_one]

lemma normW_slicesUnit {nd : Bool} {W : Mat} (h : slicesGe nd W) :
    slicesUnit nd (normW nd W) := by
  cases nd with
  | false =>
      simp only [slicesGe, slicesUnit, normW, if_neg, Bool.false_eq_true,
        ite_false] at h ⊢
      exact colsUnit_normCols h
  | true =>
      simp only [slicesGe, slicesUnit, normW, ite_true] at h ⊢
      exact rowsUnit_normRows h

lemma normW_normW {nd : Bool} {W : Mat} (h : slicesGe nd W) :
    normW nd (normW nd W) = normW nd W := by
  cases nd with
  | false =>
      simp only [slicesGe, normW, Bool.false_eq_true, ite_false] at h ⊢
      exact normCols_normCols h
  | true =>
      simp only [slicesGe, normW, ite_true] at h ⊢
      exact normRows_normRows h

lemma rowsUnit_slicesGe {W : Mat} (h : rowsUnit W) : rowsGe W := by
  intro r hr
  rw [h r hr]
  exact eps_le_one

lemma slicesUnit_slicesGe {nd : Bool} {W : Mat} (h : slicesUnit nd W) :
    slicesGe nd W := by
  cases nd with
  | false =>
      simp only [slicesUnit, slicesGe, Bool.false_eq_true, ite_false] at h ⊢
      intro j hj
      rw [h j hj]
      exact eps_le_one
  | true =>
      simp only [slicesUnit, slicesGe, ite_true] at h ⊢
      exact rowsUnit_slicesGe h

lemma normWeights_eq (nl : NormLinear) :
    nl.normWeights = { nl with weight := normW nl.norm_dim_in nl.weight } := by
  unfold NormLinear.normWeights
  split <;> rfl

lemma normWeights_weight (nl : NormLinear) :
    nl.normWeights.weight = normW nl.norm_dim_in nl.weight := by
  rw [normWeights_eq]

lemma init_norm_dim_in (dIn dOut : ℕ) (nd par : Bool) (w0 : ℕ → ℕ → ℝ) :
    (NormLinear.init dIn dOut nd par w0).norm_dim_in = nd := by
  unfold NormLinear.init
  rw [normWeights_eq]

lemma effWeight_normWeights {nl : NormLinear}
    (h : slicesGe nl.norm_dim_in nl.weight) :
    slicesUnit nl.norm_dim_in nl.normWeights.effWeight := by
  rw [normWeights_eq]
  unfold NormLinear.effWeight
  cases hp : nl.parametrize with
  | false => simpa using normW_slicesUnit h
  | true =>
      simp only [hp, ite_true]
      rw [normW_normW h]
      exact normW_slicesUnit h

lemma mkMat_one_one (f : ℕ → ℕ → ℝ) : mkMat 1 1 f = [[f 0 0]] := rfl

lemma l2normList_one : l2normList [(1 : ℝ)] = [(1 : ℝ)] :=
  l2normList_of_vnorm_one (by rw [vnorm_singleton]; norm_num)

lemma l2normList_zero : l2normList [(0 : ℝ)] = [(0 : ℝ)] := by
  rw [l2normList_singleton]
  simp

lemma l2normList_small : l2normList [(1e-13 : ℝ)] = [(1e-13 : ℝ) / eps] := by
  rw [l2normList_singleton, abs_of_pos (by norm_num),
    max_eq_right (by norm_num [eps])]

lemma l2normList_tenth : l2normList [(1e-13 : ℝ) / eps] = [(1 : ℝ)] := by
  rw [show (1e-13 : ℝ) / eps = 1 / 10 by norm_num [eps], l2normList_singleton,
    abs_of_pos (by norm_num), max_eq_left (by norm_num [eps])]
  norm_num

lemma slicesGe_single_one : slicesGe true [[(1 : ℝ)]] := by
  simp only [slicesGe, ite_true]
  intro r hr
  simp only [List.mem_singleton] at hr
  subst hr
  rw [vnorm_singleton]
  norm_num [eps]

/-- C2 (amended): the `Residual` output is unit-norm along the feature axis
whenever the lerp blend of the input with the normalized inner output has
norm at least the `F.normalize` clamp `eps` (the blend is then genuinely
normalized rather than clamped). -/
theorem claim2_residual_unit_norm (α : Type) (call : α → List ℝ → List ℝ)
    (r : Residual α) (x : List ℝ)
    (h : eps ≤ vnorm (lerp x (l2normList (call r.fn x)) r.branch_scale.forward)) :
    vnorm (Residual.forward call r x) = 1 :=
  vnorm_l2normList_eq_one h

/-- C2 witness: a concrete `Residual` whose blend is well above `eps`, with
the unit-norm conclusion obtained from `claim2_residual_unit_norm`. -/
theorem claim2_residual_unit_norm_witness :
    eps ≤ vnorm (lerp [(1 : ℝ)]
        (l2normList ((fun f : List ℝ → List ℝ => f)
          ((⟨fun _ => [1], Scale.init 1 1 1⟩ : Residual (List ℝ → List ℝ)).fn)
          [(1 : ℝ)]))
        ((⟨fun _ => [1], Scale.init 1 1 1⟩ :
          Residual (List ℝ → List ℝ)).branch_scale).forward) ∧
    vnorm (Residual.forward (fun f : List ℝ → List ℝ => f)
        ⟨fun _ => [1], Scale.init 1 1 1⟩ [(1 : ℝ)]) = 1 := by
  have hsf : (Scale.init 1 1 1).forward = [(1 : ℝ)] := by
    simp [Scale.forward, Scale.init]
  have h : eps ≤ vnorm (lerp [(1 : ℝ)]
      (l2normList ((fun f : List ℝ → List ℝ => f)
        ((⟨fun _ => [1], Scale.init 1 1 1⟩ : Residual (List ℝ → List ℝ)).fn)
        [(1 : ℝ)]))
      ((⟨fun _ => [1], Scale.init 1 1 1⟩ :
        Residual (List ℝ → List ℝ)).branch_scale).forward) := by
    show eps ≤ vnorm (lerp [(1 : ℝ)] (l2normList [(1 : ℝ)]) (Scale.init 1 1 1).forward)
    rw [l2normList_one, hsf]
    rw [show lerp [(1 : ℝ)] [(1 : ℝ)] [(1 : ℝ)] = [(1 : ℝ)] by
      simp [lerp]]
    rw [vnorm_singleton]
    norm_num [eps]
  exact ⟨h, claim2_residual_unit_norm _ _ _ _ h⟩

/-- C2 counterexample: at `x = [0]` with a zero inner transform the blend is
the zero vector, which `F.normalize` maps to zero, so the returned tensor has
L2 norm `0`, not `1` — the claim fails as universally stated. -/
theorem claim2_counterexample :
    vnorm (Residual.forward (fun f : List ℝ → List ℝ => f)
      (Residual.init (fun _ : List ℝ => [0]) 1 (1 / 2) none) [(0 : ℝ)]) ≠ 1 := by
  simp only [Residual.forward, Residual.init, Option.getD_none, Nat.cast_one,
    Real.one_rpow]
  rw [l2normList_zero]
  rw [show (Scale.init 1 (1 / 2) (1 : ℝ)).forward = [(1 : ℝ) / 2] by
    simp [Scale.forward, Scale.init]]
  rw [show lerp [(0 : ℝ)] [(0 : ℝ)] [(1 : ℝ) / 2] = [(0 : ℝ)] by
    simp [lerp]]
  rw [l2normList_zero, vnorm_singleton]
  norm_num

/-- C3 (amended): whenever the normalized slices (rows for
`norm_dim_in = True`, columns otherwise) of the underlying weight have norm
at least the `F.normalize` clamp `eps`, the weight used in forward
computation has unit-norm slices: at construction in both modes, after any
`norm_weights_()` call in both modes, and — in parametrize mode — for any raw
weight whatsoever satisfying the same bound. -/
theorem claim3_unit_slices (dIn dOut : ℕ) (nd par : Bool) (w0 : ℕ → ℕ → ℝ)
    (h : slicesGe nd (mkMat dOut dIn w0)) :
    slicesUnit nd (NormLinear.init dIn dOut nd par w0).effWeight ∧
    (∀ nl : NormLinear, slicesGe nl.norm_dim_in nl.weight →
      slicesUnit nl.norm_dim_in nl.normWeights.effWeight) ∧
    (∀ W : Mat, slicesGe nd W →
      slicesUnit nd (NormLinear.effWeight
        { dim := dIn, dim_out := dOut, norm_dim_in := nd, parametrize := true,
          weight := W })) := by
  refine ⟨?_, fun nl hnl => effWeight_normWeights hnl, fun W hW => ?_⟩
  · exact @effWeight_normWeights
      { dim := dIn, dim_out := dOut, norm_dim_in := nd, parametrize := par,
        weight := mkMat dOut dIn w0 } h
  · simpa [NormLinear.effWeight] using normW_slicesUnit hW

/-- C3 witness: a concrete 1×1 `NormLinear` whose raw row has norm `1 ≥ eps`,
with the unit-slice conclusion obtained from `claim3_unit_slices`. -/
theorem claim3_unit_slices_witness :
    slicesGe true (mkMat 1 1 (fun _ _ => (1 : ℝ))) ∧
    slicesUnit true (NormLinear.init 1 1 true true (fun _ _ => (1 : ℝ))).effWeight := by
  have h : slicesGe true (mkMat 1 1 (fun _ _ => (1 : ℝ))) := by
    rw [mkMat_one_one]
    exact slicesGe_single_one
  exact ⟨h, (claim3_unit_slices 1 1 true true _ h).1⟩

/-- C3 counterexample: a constructed manual-mode `NormLinear` whose raw row
norm `1e-13` is below the clamp `eps = 1e-12`: construction leaves the
forward weight row at `[1e-13 / 1e-12] = [0.1]`, whose norm is `0.1`, not
`1` — so the unit-norm claim fails for some constructed instances. -/
theorem claim3_counterexample :
    ¬ slicesUnit true
      (NormLinear.init 1 1 true false (fun _ _ => (1e-13 : ℝ))).effWeight := by
  intro hcon
  have hw : (NormLinear.init 1 1 true false (fun _ _ => (1e-13 : ℝ))).effWeight
      = [[(1e-13 : ℝ) / eps]] := by
    unfold NormLinear.init
    rw [normWeights_eq]
    unfold NormLinear.effWeight
    simp only [ite_false, Bool.false_eq_true, mkMat_one_one]
    show normW true [[(1e-13 : ℝ)]] = [[(1e-13 : ℝ) / eps]]
    simp only [normW, ite_true, normRows, List.map_cons, List.map_nil,
      l2normList_small]
  rw [hw] at hcon
  simp only [slicesUnit, ite_true] at hcon
  have h1 := hcon [(1e-13 : ℝ) / eps] (by simp)
  rw [vnorm_singleton] at h1
  rw [show (1e-13 : ℝ) / eps = 1 / 10 by norm_num [eps]] at h1
  rw [abs_of_pos (by norm_num : (0 : ℝ) < 1 / 10)] at h1
  norm_num at h1

/-- C4 (amended): when every normalized slice of the freshly allocated raw
weight has norm at least the clamp `eps`, a parametrize-mode `NormLinear` and
a manual-mode `NormLinear` constructed from the same raw weight (construction
applies `norm_weights_()` to both) compute the same forward output on every
input. -/
theorem claim4_mode_equivalence (dIn dOut : ℕ) (nd : Bool) (w0 : ℕ → ℕ → ℝ)
    (x : List ℝ) (h : slicesGe nd (mkMat dOut dIn w0)) :
    (NormLinear.init dIn dOut nd true w0).forward x =
      (NormLinear.init dIn dOut nd false w0).forward x := by
  unfold NormLinear.forward
  have heq : (NormLinear.init dIn dOut nd true w0).effWeight =
      (NormLinear.init dIn dOut nd false w0).effWeight := by
    unfold NormLinear.init
    rw [normWeights_eq, normWeights_eq]
    unfold NormLinear.effWeight
    simp only [ite_true, ite_false, Bool.false_eq_true]
    exact normW_normW h
  rw [heq]

/-- C4 witness: concrete 1×1 instance with raw row norm `1 ≥ eps`, forward
equivalence obtained from `claim4_mode_equivalence`. -/
theorem claim4_mode_equivalence_witness :
    slicesGe true (mkMat 1 1 (fun _ _ => (1 : ℝ))) ∧
    (NormLinear.init 1 1 true true (fun _ _ => (1 : ℝ))).forward [(2 : ℝ)] =
      (NormLinear.init 1 1 true false (fun _ _ => (1 : ℝ))).forward [(2 : ℝ)] := by
  have h : slicesGe true (mkMat 1 1 (fun _ _ => (1 : ℝ))) := by
    rw [mkMat_one_one]
    exact slicesGe_single_one
  exact ⟨h, claim4_mode_equivalence 1 1 true _ _ h⟩

/-- C4 counterexample: with raw weight `[[1e-13]]` (norm below `eps`) and
input `[1]`, the parametrize-mode forward is `[1]` while the manual-mode
forward is `[0.1]`: the two modes are not forward-equivalent in general. -/
theorem claim4_counterexample :
    (NormLinear.init 1 1 true true (fun _ _ => (1e-13 : ℝ))).forward [(1 : ℝ)] ≠
      (NormLinear.init 1 1 true false (fun _ _ => (1e-13 : ℝ))).forward [(1 : ℝ)] := by
  have hsmall : normW true [[(1e-13 : ℝ)]] = [[(1e-13 : ℝ) / eps]] := by
    simp only [normW, ite_true, normRows, List.map_cons, List.map_nil,
      l2normList_small]
  have h1 : (NormLinear.init 1 1 true true (fun _ _ => (1e-13 : ℝ))).forward
      [(1 : ℝ)] = [(1 : ℝ)] := by
    unfold NormLinear.forward NormLinear.init
    rw [normWeights_eq]
    unfold NormLinear.effWeight
    simp only [ite_true, mkMat_one_one]
    rw [hsmall]
    rw [show normW true [[(1e-13 : ℝ) / eps]] = [[(1 : ℝ)]] by
      simp only [normW, ite_true, normRows, List.map_cons, List.map_nil,
        l2normList_tenth]]
    simp [linearFwd, dot, zipMul]
  have h2 : (NormLinear.init 1 1 true false (fun _ _ => (1e-13 : ℝ))).forward
      [(1 : ℝ)] = [(1e-13 : ℝ) / eps] := by
    unfold NormLinear.forward NormLinear.init
    rw [normWeights_eq]
    unfold NormLinear.effWeight
    simp only [ite_false, Bool.false_eq_true, mkMat_one_one]
    rw [hsmall]
    simp [linearFwd, dot, zipMul]
  rw [h1, h2]
  intro hcontra
  have := List.head_eq_of_cons_eq hcontra
  rw [show (1e-13 : ℝ) / eps = 1 / 10 by norm_num [eps]] at this
  norm_num at this

/-- C7 (amended): `norm_weights_()` is idempotent — in both modes — on every
`NormLinear` whose normalized slices have norm at least the clamp `eps`; in
particular it is safe to call at any time, and a second call after a first is
the identity under that bound. -/
theorem claim7_norm_weights_idem (nl : NormLinear)
    (h : slicesGe nl.norm_dim_in nl.weight) :
    nl.normWeights.normWeights = nl.normWeights := by
  have h1 := normWeights_eq nl
  rw [h1, normWeights_eq]
  simp only [NormLinear.mk.injEq, and_true, true_and]
  exact normW_normW h

/-- C7 witness: a manual-mode `NormLinear` with unit row `[1]`; the second
`norm_weights_()` call is the identity, by `claim7_norm_weights_idem`. -/
theorem claim7_norm_weights_idem_witness :
    slicesGe (NormLinear.norm_dim_in ⟨1, 1, true, false, [[(1 : ℝ)]]⟩)
      (NormLinear.weight ⟨1, 1, true, false, [[(1 : ℝ)]]⟩) ∧
    (⟨1, 1, true, false, [[(1 : ℝ)]]⟩ : NormLinear).normWeights.normWeights =
      (⟨1, 1, true, false, [[(1 : ℝ)]]⟩ : NormLinear).normWeights := by
  have h : slicesGe true [[(1 : ℝ)]] := slicesGe_single_one
  exact ⟨h, claim7_norm_weights_idem _ h⟩

/-- C7 counterexample: construction of a manual-mode `NormLinear` from the
raw weight `[[1e-13]]` (one `norm_weights_()` call) stores `[[0.1]]`; the
next `norm_weights_()` call changes it to `[[1]]` — the second call is not a
fixed point, so idempotence fails as universally stated. -/
theorem claim7_counterexample :
    (NormLinear.init 1 1 true false (fun _ _ => (1e-13 : ℝ))).normWeights ≠
      NormLinear.init 1 1 true false (fun _ _ => (1e-13 : ℝ)) := by
  intro hcontra
  have hw := congrArg NormLinear.weight hcontra
  have hsmall : normW true [[(1e-13 : ℝ)]] = [[(1e-13 : ℝ) / eps]] := by
    simp only [normW, ite_true, normRows, List.map_cons, List.map_nil,
      l2normList_small]
  have hfirst : (NormLinear.init 1 1 true false (fun _ _ => (1e-13 : ℝ))).weight
      = [[(1e-13 : ℝ) / eps]] := by
    unfold NormLinear.init
    rw [normWeights_eq]
    simpa [mkMat_one_one] using hsmall
  have hsecond :
      (NormLinear.init 1 1 true false (fun _ _ => (1e-13 : ℝ))).normWeights.weight
      = [[(1 : ℝ)]] := by
    rw [normWeights_weight, init_norm_dim_in, hfirst]
    simp only [normW, ite_true, normRows, List.map_cons, List.map_nil,
      l2normList_tenth]
  rw [hsecond, hfirst] at hw
  have := List.head_eq_of_cons_eq hw
  have h2 := List.head_eq_of_cons_eq this
  rw [show (1e-13 : ℝ) / eps = 1 / 10 by norm_num [eps]] at h2
  norm_num at h2

/-- C8: for every freshly constructed `Scale(dim, init, scale)` — every
successful construction has `scale ≠ 0`, since Python's
`forward_scale = init / scale` raises `ZeroDivisionError` at `scale = 0` and
no object exists there — the learned vector is initialized to the constant
`scale` in every entry, and evaluating the Scale immediately returns a
`[dim]` vector whose every entry equals `init`. -/
theorem claim8_scale_init (d : ℕ) (i s : ℝ) (sc : Scale)
    (h : Scale.initChecked d i s = some sc) :
    sc.scaleParam = List.replicate d s ∧ sc.forward = List.replicate d i := by
  unfold Scale.initChecked at h
  split at h
  · exact absurd h (by simp)
  · rename_i hs
    have hsc : sc = Scale.init d i s := (Option.some.injEq _ _ ▸ h).symm
    subst hsc
    refine ⟨rfl, ?_⟩
    unfold Scale.forward Scale.init
    rw [List.map_replicate]
    rw [show s * (i / s) = i by
      rw [mul_comm, div_mul_cancel₀ i hs]]

/-- C8 witness: `Scale(3, 5, 2)` constructs successfully and evaluates to
`[5, 5, 5]` right after construction, by `claim8_scale_init`. -/
theorem claim8_scale_init_witness :
    Scale.initChecked 3 5 (2 : ℝ) = some (Scale.init 3 5 2) ∧
    (Scale.init 3 5 (2 : ℝ)).scaleParam = List.replicate 3 (2 : ℝ) ∧
    (Scale.init 3 5 (2 : ℝ)).forward = List.replicate 3 (5 : ℝ) := by
  have h : Scale.initChecked 3 5 (2 : ℝ) = some (Scale.init 3 5 2) := by
    unfold Scale.initChecked
    rw [if_neg (by norm_num : ((2 : ℝ) = 0) → False)]
  exact ⟨h, claim8_scale_init 3 5 2 _ h⟩

lemma pyInt_toNat (q : ℚ) : (pyInt q).toNat = ⌊q⌋₊ := by
  unfold pyInt
  split
  · exact Int.floor_toNat q
  · rename_i hq
    push_neg at hq
    have h1 : (-⌊-q⌋).toNat = 0 := by
      apply Int.toNat_of_nonpos
      have h2 : (0 : ℤ) ≤ ⌊-q⌋ := Int.floor_nonneg.mpr (by linarith)
      omega
    rw [h1]
    exact (Nat.floor_eq_zero.mpr (by linarith)).symm

/-- C5: `dim_inner` is `floor(dim * expand_factor * 2/3)` at construction
(`int()` truncation agrees with the floor here), and the forward pass
computes exactly `NormLinear_out(silu(NormLinear_gate(x) * Scale_gate() *
sqrt(dim)) * (NormLinear_hidden(x) * Scale_hidden()))` — the source's
`dim ** 0.5` factor coincides with the spec's `sqrt(dim)`. -/
theorem claim5_ff_formula (dim : ℕ) (ef : ℚ) (manual : Bool)
    (shi shs sgi sgs : ℝ) (wh wg wo : ℕ → ℕ → ℝ) (x : List ℝ) :
    (nFeedforward.init dim ef manual shi shs sgi sgs wh wg wo).dim_inner =
      Nat.floor ((dim : ℚ) * ef * 2 / 3) ∧
    (∀ ff : nFeedforward, ff.forward x = nFeedforwardSpec ff x) := by
  constructor
  · show (pyInt ((dim : ℚ) * ef * 2 / 3)).toNat = _
    exact pyInt_toNat _
  · intro ff
    simp only [nFeedforward.forward, nFeedforwardSpec]
    rw [show (fun a : ℝ => a * (ff.dim : ℝ) ^ ((0.5 : ℝ))) =
        (fun a : ℝ => a * Real.sqrt (ff.dim : ℝ)) by
      funext a
      rw [show ((0.5 : ℝ)) = 1 / 2 by norm_num, ← Real.sqrt_eq_rpow]]

lemma castTuple_scalar {α : Type} (v : α) (n : ℕ) :
    castTuple (PyVal.scalar v) n = some (List.replicate n v) := by
  simp [castTuple]

lemma castTuple_tup_of_len {α : Type} {l : List α} {n : ℕ} (h : l.length = n) :
    castTuple (PyVal.tup l) n = some l := by
  simp [castTuple, h]

lemma castTuple_badLen {α : Type} {t : PyVal α} {n : ℕ} (h : t.badLen n) :
    castTuple t n = none := by
  rcases h with ⟨l, rfl, hl⟩
  simp [castTuple, hl]

lemma init_some_elim {dim depth : ℕ} {dim_in dim_out : Option ℕ}
    {ef : ℚ} {ipm : Bool} {cs : ℝ} {mnw : Bool} {aI : Option ℝ}
    {aai aas afi afs : PyVal (Option ℝ)} {shi shs sgi sgs : PyVal ℝ}
    {wh wg wo : ℕ → ℕ → ℕ → ℝ} {wpin wpout : ℕ → ℕ → ℝ} {s : nFeedforwards}
    (h : nFeedforwards.init dim depth dim_in dim_out ef ipm cs mnw aI
      aai aas afi afs shi shs sgi sgs wh wg wo wpin wpout = some s) :
    ∃ lafi lafs lshi lshs lsgi lsgs,
      castTuple afi depth = some lafi ∧ castTuple afs depth = some lafs ∧
      castTuple shi depth = some lshi ∧ castTuple shs depth = some lshs ∧
      castTuple sgi depth = some lsgi ∧ castTuple sgs depth = some lsgs ∧
      (castTuple aai depth).isSome ∧ (castTuple aas depth).isSome ∧
      s = mkStack dim depth dim_in dim_out ef ipm cs mnw aI
        lafi lafs lshi lshs lsgi lsgs wh wg wo wpin wpout := by
  unfold nFeedforwards.init at h
  cases h1 : castTuple aai depth with
  | none => rw [h1, Option.none_bind] at h; exact absurd h (by simp)
  | some l1 =>
  rw [h1, Option.some_bind] at h
  cases h2 : castTuple aas depth with
  | none => rw [h2, Option.none_bind] at h; exact absurd h (by simp)
  | some l2 =>
  rw [h2, Option.some_bind] at h
  cases h3 : castTuple afi depth with
  | none => rw [h3, Option.none_bind] at h; exact absurd h (by simp)
  | some l3 =>
  rw [h3, Option.some_bind] at h
  cases h4 : castTuple afs depth with
  | none => rw [h4, Option.none_bind] at h; exact absurd h (by simp)
  | some l4 =>
  rw [h4, Option.some_bind] at h
  cases h5 : castTuple shi depth with
  | none => rw [h5, Option.none_bind] at h; exact absurd h (by simp)
  | some l5 =>
  rw [h5, Option.some_bind] at h
  cases h6 : castTuple shs depth with
  | none => rw [h6, Option.none_bind] at h; exact absurd h (by simp)
  | some l6 =>
  rw [h6, Option.some_bind] at h
  cases h7 : castTuple sgi depth with
  | none => rw [h7, Option.none_bind] at h; exact absurd h (by simp)
  | some l7 =>
  rw [h7, Option.some_bind] at h
  cases h8 : castTuple sgs depth with
  | none => rw [h8, Option.none_bind] at h; exact absurd h (by simp)
  | some l8 =>
  rw [h8, Option.some_bind] at h
  exact ⟨l3, l4, l5, l6, l7, l8, rfl, rfl, rfl, rfl, rfl, rfl,
    by simp, by simp, (Option.some.injEq _ _ ▸ h).symm⟩

/-- C1 (the code's actual behavior at a failing input): constructing
`nFeedforwards(dim=2, depth=1, dim_in=2, dim_out=2,
manual_norm_weights=True)` yields a stack whose input projection has
`parametrize = true` — the source builds `proj_in` with the plain
`NormLinear` class, so the manual flag never reaches it — while every other
`NormLinear` in the stack (the three per-layer ones and the output
projection) is manual (`parametrize = false`) as the claim demands. -/
theorem claim1_proj_in_ignores_manual_flag :
    (nFeedforwards.init 2 1 (some 2) (some 2) 4 false 3 true none
        (PyVal.scalar none) (PyVal.scalar none) (PyVal.scalar none)
        (PyVal.scalar none) (PyVal.scalar 1) (PyVal.scalar 1)
        (PyVal.scalar 1) (PyVal.scalar 1)
        (fun _ _ _ => 1) (fun _ _ _ => 1) (fun _ _ _ => 1)
        (fun _ _ => 1) (fun _ _ => 1)).map (fun s =>
      (s.proj_in.map (fun p => p.1.parametrize),
       s.proj_out.map (fun p => p.1.parametrize),
       s.layers.map (fun r =>
         (r.fn.to_hidden.parametrize, r.fn.to_gate.parametrize,
          r.fn.to_out.parametrize)))) =
    some (some true, some false, [(false, false, false)]) := by
  rfl

/-- C6: supplying any of the six per-layer feedforward hyperparameters as an
explicit tuple whose length differs from `depth` makes construction fail,
while a scalar is broadcast: constructing with scalars is identical to
constructing with the corresponding `depth`-length constant tuples. -/
theorem claim6_hparam_validation (dim depth : ℕ) (dim_in dim_out : Option ℕ)
    (ef : ℚ) (ipm : Bool) (cs : ℝ) (mnw : Bool) (aI : Option ℝ)
    (aai aas afi afs : PyVal (Option ℝ)) (shi shs sgi sgs : PyVal ℝ)
    (wh wg wo : ℕ → ℕ → ℕ → ℝ) (wpin wpout : ℕ → ℕ → ℝ) :
    ((afi.badLen depth ∨ afs.badLen depth ∨ shi.badLen depth ∨
        shs.badLen depth ∨ sgi.badLen depth ∨ sgs.badLen depth) →
      nFeedforwards.init dim depth dim_in dim_out ef ipm cs mnw aI
        aai aas afi afs shi shs sgi sgs wh wg wo wpin wpout = none) ∧
    (∀ (vafi vafs : Option ℝ) (v1 v2 v3 v4 : ℝ),
      nFeedforwards.init dim depth dim_in dim_out ef ipm cs mnw aI
        aai aas (PyVal.scalar vafi) (PyVal.scalar vafs) (PyVal.scalar v1)
        (PyVal.scalar v2) (PyVal.scalar v3) (PyVal.scalar v4)
        wh wg wo wpin wpout =
      nFeedforwards.init dim depth dim_in dim_out ef ipm cs mnw aI
        aai aas (PyVal.tup (List.replicate depth vafi))
        (PyVal.tup (List.replicate depth vafs))
        (PyVal.tup (List.replicate depth v1))
        (PyVal.tup (List.replicate depth v2))
        (PyVal.tup (List.replicate depth v3))
        (PyVal.tup (List.replicate depth v4)) wh wg wo wpin wpout) := by
  constructor
  · intro hbad
    by_contra hne
    rcases Option.ne_none_iff_exists'.mp hne with ⟨s, hs⟩
    rcases init_some_elim hs with
      ⟨lafi, lafs, lshi, lshs, lsgi, lsgs, e3, e4, e5, e6, e7, e8, _, _, _⟩
    rcases hbad with h | h | h | h | h | h
    · rw [castTuple_badLen h] at e3; exact absurd e3 (by simp)
    · rw [castTuple_badLen h] at e4; exact absurd e4 (by simp)
    · rw [castTuple_badLen h] at e5; exact absurd e5 (by simp)
    · rw [castTuple_badLen h] at e6; exact absurd e6 (by simp)
    · rw [castTuple_badLen h] at e7; exact absurd e7 (by simp)
    · rw [castTuple_badLen h] at e8; exact absurd e8 (by simp)
  · intro vafi vafs v1 v2 v3 v4
    unfold nFeedforwards.init
    rw [castTuple_scalar vafi, castTuple_scalar vafs, castTuple_scalar v1,
      castTuple_scalar v2, castTuple_scalar v3, castTuple_scalar v4,
      castTuple_tup_of_len (List.length_replicate depth vafi),
      castTuple_tup_of_len (List.length_replicate depth vafs),
      castTuple_tup_of_len (List.length_replicate depth v1),
      castTuple_tup_of_len (List.length_replicate depth v2),
      castTuple_tup_of_len (List.length_replicate depth v3),
      castTuple_tup_of_len (List.length_replicate depth v4)]

/-- C6 witness: `depth = 4` with `s_ff_hidden_init` an explicit length-3
tuple fails construction, and a scalar `s_ff_hidden_init = 7` builds the same
stack as the explicit 4-tuple `(7, 7, 7, 7)`, both by
`claim6_hparam_validation`. -/
theorem claim6_hparam_validation_witness :
    nFeedforwards.init 2 4 none none 4 false 3 false none
      (PyVal.scalar none) (PyVal.scalar none) (PyVal.scalar none)
      (PyVal.scalar none) (PyVal.tup [1, 1, 1]) (PyVal.scalar 1)
      (PyVal.scalar 1) (PyVal.scalar 1)
      (fun _ _ _ => 1) (fun _ _ _ => 1) (fun _ _ _ => 1)
      (fun _ _ => 1) (fun _ _ => 1) = none ∧
    nFeedforwards.init 2 4 none none 4 false 3 false none
      (PyVal.scalar none) (PyVal.scalar none) (PyVal.scalar none)
      (PyVal.scalar none) (PyVal.scalar 7) (PyVal.scalar 1)
      (PyVal.scalar 1) (PyVal.scalar 1)
      (fun _ _ _ => 1) (fun _ _ _ => 1) (fun _ _ _ => 1)
      (fun _ _ => 1) (fun _ _ => 1) =
    nFeedforwards.init 2 4 none none 4 false 3 false none
      (PyVal.scalar none) (PyVal.scalar none)
      (PyVal.tup (List.replicate 4 none)) (PyVal.tup (List.replicate 4 none))
      (PyVal.tup (List.replicate 4 7)) (PyVal.tup (List.replicate 4 1))
      (PyVal.tup (List.replicate 4 1)) (PyVal.tup (List.replicate 4 1))
      (fun _ _ _ => 1) (fun _ _ _ => 1) (fun _ _ _ => 1)
      (fun _ _ => 1) (fun _ _ => 1) := by
  constructor
  · exact (claim6_hparam_validation 2 4 none none 4 false 3 false none
      (PyVal.scalar none) (PyVal.scalar none) (PyVal.scalar none)
      (PyVal.scalar none) (PyVal.tup [1, 1, 1]) (PyVal.scalar 1)
      (PyVal.scalar 1) (PyVal.scalar 1)
      (fun _ _ _ => 1) (fun _ _ _ => 1) (fun _ _ _ => 1)
      (fun _ _ => 1) (fun _ _ => 1)).1
      (Or.inr (Or.inr (Or.inl ⟨[1, 1, 1], rfl, by norm_num⟩)))
  · exact (claim6_hparam_validation 2 4 none none 4 false 3 false none
      (PyVal.scalar none) (PyVal.scalar none) (PyVal.scalar none)
      (PyVal.scalar none) (PyVal.scalar 7) (PyVal.scalar 1)
      (PyVal.scalar 1) (PyVal.scalar 1)
      (fun _ _ _ => 1) (fun _ _ _ => 1) (fun _ _ _ => 1)
      (fun _ _ => 1) (fun _ _ => 1)).2 none none 7 1 1 1

/-- C10: `alpha_attn_init` and `alpha_attn_scale` are inert: two
constructions identical except for these two arguments (each a scalar or a
`depth`-length tuple, so that its `cast_tuple` assert passes) produce equal
stacks — hence equal parameters — and compute equal forward outputs on every
input. -/
theorem claim10_attn_hparams_inert (dim depth : ℕ) (dim_in dim_out : Option ℕ)
    (ef : ℚ) (ipm : Bool) (cs : ℝ) (mnw : Bool) (aI : Option ℝ)
    (aaiA aasA aaiB aasB : PyVal (Option ℝ)) (afi afs : PyVal (Option ℝ))
    (shi shs sgi sgs : PyVal ℝ)
    (wh wg wo : ℕ → ℕ → ℕ → ℝ) (wpin wpout : ℕ → ℕ → ℝ)
    (h1 : (castTuple aaiA depth).isSome) (h2 : (castTuple aasA depth).isSome)
    (h3 : (castTuple aaiB depth).isSome) (h4 : (castTuple aasB depth).isSome) :
    nFeedforwards.init dim depth dim_in dim_out ef ipm cs mnw aI
      aaiA aasA afi afs shi shs sgi sgs wh wg wo wpin wpout =
    nFeedforwards.init dim depth dim_in dim_out ef ipm cs mnw aI
      aaiB aasB afi afs shi shs sgi sgs wh wg wo wpin wpout ∧
    (∀ (x : List ℝ) (sA sB : nFeedforwards),
      nFeedforwards.init dim depth dim_in dim_out ef ipm cs mnw aI
        aaiA aasA afi afs shi shs sgi sgs wh wg wo wpin wpout = some sA →
      nFeedforwards.init dim depth dim_in dim_out ef ipm cs mnw aI
        aaiB aasB afi afs shi shs sgi sgs wh wg wo wpin wpout = some sB →
      sA.forward x = sB.forward x) := by
  rcases Option.isSome_iff_exists.mp h1 with ⟨l1, e1⟩
  rcases Option.isSome_iff_exists.mp h2 with ⟨l2, e2⟩
  rcases Option.isSome_iff_exists.mp h3 with ⟨l3, e3⟩
  rcases Option.isSome_iff_exists.mp h4 with ⟨l4, e4⟩
  have hmain :
      nFeedforwards.init dim depth dim_in dim_out ef ipm cs mnw aI
        aaiA aasA afi afs shi shs sgi sgs wh wg wo wpin wpout =
      nFeedforwards.init dim depth dim_in dim_out ef ipm cs mnw aI
        aaiB aasB afi afs shi shs sgi sgs wh wg wo wpin wpout := by
    unfold nFeedforwards.init
    rw [e1, e2, e3, e4, Option.some_bind, Option.some_bind, Option.some_bind,
      Option.some_bind]
  refine ⟨hmain, fun x sA sB hA hB => ?_⟩
  rw [hmain] at hA
  rw [hA] at hB
  exact congrArg (fun s => nFeedforwards.forward s x)
    (Option.some.injEq _ _ ▸ hB)

/-- C10 witness: two depth-1 constructions differing only in the attention
alpha hyperparameters (one scalar `None`, one explicit 1-tuple) are equal,
by `claim10_attn_hparams_inert`. -/
theorem claim10_attn_hparams_inert_witness :
    nFeedforwards.init 2 1 none none 4 false 3 false none
      (PyVal.scalar none) (PyVal.scalar (some 5)) (PyVal.scalar none)
      (PyVal.scalar none) (PyVal.scalar 1) (PyVal.scalar 1) (PyVal.scalar 1)
      (PyVal.scalar 1) (fun _ _ _ => 1) (fun _ _ _ => 1) (fun _ _ _ => 1)
      (fun _ _ => 1) (fun _ _ => 1) =
    nFeedforwards.init 2 1 none none 4 false 3 false none
      (PyVal.tup [some 7]) (PyVal.scalar none) (PyVal.scalar none)
      (PyVal.scalar none) (PyVal.scalar 1) (PyVal.scalar 1) (PyVal.scalar 1)
      (PyVal.scalar 1) (fun _ _ _ => 1) (fun _ _ _ => 1) (fun _ _ _ => 1)
      (fun _ _ => 1) (fun _ _ => 1) :=
  (claim10_attn_hparams_inert 2 1 none none 4 false 3 false none
    (PyVal.scalar none) (PyVal.scalar (some 5)) (PyVal.tup [some 7])
    (PyVal.scalar none) (PyVal.scalar none) (PyVal.scalar none)
    (PyVal.scalar 1) (PyVal.scalar 1) (PyVal.scalar 1) (PyVal.scalar 1)
    (fun _ _ _ => 1) (fun _ _ _ => 1) (fun _ _ _ => 1)
    (fun _ _ => 1) (fun _ _ => 1)
    (by simp [castTuple]) (by simp [castTuple])
    (by simp [castTuple]) (by simp [castTuple])).1

lemma length_l2normList (l : List ℝ) : (l2normList l).length = l.length := by
  simp [l2normList]

lemma length_zipMul (a b : List ℝ) :
    (zipMul a b).length = min a.length b.length := by
  simp [zipMul]

lemma length_linearFwd (W : Mat) (x : List ℝ) :
    (linearFwd W x).length = W.length := by
  simp [linearFwd]

lemma length_normW (nd : Bool) (W : Mat) : (normW nd W).length = W.length := by
  cases nd <;> simp [normW, normRows, normCols]

lemma length_effWeight (nl : NormLinear) :
    nl.effWeight.length = nl.weight.length := by
  unfold NormLinear.effWeight
  split
  · exact length_normW _ _
  · rfl

lemma length_mkMat (r c : ℕ) (f : ℕ → ℕ → ℝ) : (mkMat r c f).length = r := by
  simp [mkMat]

lemma init_weight_length (dIn dOut : ℕ) (nd par : Bool) (w0 : ℕ → ℕ → ℝ) :
    (NormLinear.init dIn dOut nd par w0).weight.length = dOut := by
  unfold NormLinear.init
  rw [normWeights_weight]
  show (normW nd (mkMat dOut dIn w0)).length = dOut
  rw [length_normW, length_mkMat]

lemma length_NL_forward (nl : NormLinear) (x : List ℝ) :
    (nl.forward x).length = nl.weight.length := by
  unfold NormLinear.forward
  rw [length_linearFwd, length_effWeight]

lemma length_Scale_forward (s : Scale) :
    s.forward.length = s.scaleParam.length := by
  simp [Scale.forward]

lemma length_lerp : ∀ a b t : List ℝ,
    (lerp a b t).length = min (min a.length b.length) t.length := by
  intro a
  induction a with
  | nil => intro b t; cases b <;> cases t <;> simp [lerp]
  | cons x xs ih =>
      intro b t
      cases b <;> cases t <;> simp [lerp, ih] <;> omega

lemma length_ffForward (ff : nFeedforward) (x : List ℝ) :
    (ff.forward x).length = ff.to_out.weight.length := by
  simp only [nFeedforward.forward]
  rw [length_NL_forward]

lemma length_residForward {d : ℕ} {r : Residual nFeedforward}
    (hr : layerDims d r) {x : List ℝ} (hx : x.length = d) :
    (Residual.forward nFeedforward.forward r x).length = d := by
  unfold Residual.forward
  rw [length_l2normList, length_lerp, length_l2normList, length_ffForward,
    hr.1, length_Scale_forward, hr.2, hx]
  omega

lemma length_foldl_layers {d : ℕ} :
    ∀ (ls : List (Residual nFeedforward)) (x : List ℝ),
    (∀ r ∈ ls, layerDims d r) → x.length = d →
    (ls.foldl (fun y r => Residual.forward nFeedforward.forward r y) x).length
      = d := by
  intro ls
  induction ls with
  | nil => intro x _ hx; simpa using hx
  | cons r t ih =>
      intro x h hx
      simp only [List.foldl_cons]
      exact ih _ (fun q hq => h q (by simp [hq]))
        (length_residForward (h r (by simp)) hx)

lemma layerDims_of (dim : ℕ) (ef : ℚ) (mnw : Bool) (a b c d : ℝ)
    (wh wg wo : ℕ → ℕ → ℝ) (α : ℝ) (σ : Option ℝ) :
    layerDims dim
      (Residual.init (nFeedforward.init dim ef mnw a b c d wh wg wo) dim α σ) := by
  constructor
  · show (nFeedforward.init dim ef mnw a b c d wh wg wo).to_out.weight.length = dim
    exact init_weight_length _ _ _ _ _
  · show (Scale.init dim α (σ.getD _)).scaleParam.length = dim
    simp [Scale.init]

lemma mkStack_layers_layerDims (dim depth : ℕ) (dim_in dim_out : Option ℕ)
    (ef : ℚ) (ipm : Bool) (cs : ℝ) (mnw : Bool) (aI : Option ℝ)
    (afi afs : List (Option ℝ)) (shi shs sgi sgs : List ℝ)
    (wh wg wo : ℕ → ℕ → ℕ → ℝ) (wpin wpout : ℕ → ℕ → ℝ) :
    ∀ r ∈ (mkStack dim depth dim_in dim_out ef ipm cs mnw aI
      afi afs shi shs sgi sgs wh wg wo wpin wpout).layers, layerDims dim r := by
  intro r hr
  simp only [mkStack, List.mem_map] at hr
  rcases hr with ⟨i, _, rfl⟩
  exact layerDims_of _ _ _ _ _ _ _ _ _ _ _ _

/-- C9: for every successfully constructed stack, (i) when `dim_out` is
given, every batched input of any batch shape maps to an output of the same
batch shape whose feature axis has length `dim_out`; (ii) with no `dim_in`,
no `dim_out` and `input_preserve_magnitude = false`, inputs whose feature
axis has length `dim` map to outputs of exactly the input's shape.  The batch
index type `MIdx bs` is preserved by construction of `forwardB`. -/
theorem claim9_shapes :
    (∀ (dim depth : ℕ) (dim_in : Option ℕ) (dOut : ℕ) (ef : ℚ) (ipm : Bool)
      (cs : ℝ) (mnw : Bool) (aI : Option ℝ)
      (aai aas afi afs : PyVal (Option ℝ)) (shi shs sgi sgs : PyVal ℝ)
      (wh wg wo : ℕ → ℕ → ℕ → ℝ) (wpin wpout : ℕ → ℕ → ℝ)
      (s : nFeedforwards) (bs : List ℕ) (t : BTensor bs),
      nFeedforwards.init dim depth dim_in (some dOut) ef ipm cs mnw aI
        aai aas afi afs shi shs sgi sgs wh wg wo wpin wpout = some s →
      ∀ i : MIdx bs, (s.forwardB t i).length = dOut) ∧
    (∀ (dim depth : ℕ) (ef : ℚ) (cs : ℝ) (mnw : Bool) (aI : Option ℝ)
      (aai aas afi afs : PyVal (Option ℝ)) (shi shs sgi sgs : PyVal ℝ)
      (wh wg wo : ℕ → ℕ → ℕ → ℝ) (wpin wpout : ℕ → ℕ → ℝ)
      (s : nFeedforwards) (bs : List ℕ) (t : BTensor bs),
      nFeedforwards.init dim depth none none ef false cs mnw aI
        aai aas afi afs shi shs sgi sgs wh wg wo wpin wpout = some s →
      (∀ i : MIdx bs, (t i).length = dim) →
      ∀ i : MIdx bs, (s.forwardB t i).length = (t i).length) := by
  constructor
  · intro dim depth dim_in dOut ef ipm cs mnw aI aai aas afi afs shi shs sgi
      sgs wh wg wo wpin wpout s bs t h i
    rcases init_some_elim h with ⟨lafi, lafs, l5, l6, l7, l8, _, _, _, _, _, _,
      _, _, rfl⟩
    simp only [nFeedforwards.forwardB, nFeedforwards.forward, mkStack,
      Option.map_some']
    rw [length_zipMul, length_NL_forward, init_weight_length,
      length_Scale_forward]
    simp [Scale.init]
  · intro dim depth ef cs mnw aI aai aas afi afs shi shs sgi sgs wh wg wo wpin
      wpout s bs t h hx i
    rcases init_some_elim h with ⟨lafi, lafs, l5, l6, l7, l8, _, _, _, _, _, _,
      _, _, rfl⟩
    have hlay := mkStack_layers_layerDims dim depth none none ef false cs mnw
      aI lafi lafs l5 l6 l7 l8 wh wg wo wpin wpout
    simp only [nFeedforwards.forwardB, nFeedforwards.forward, mkStack,
      Option.map_none', Option.isSome_none, Bool.false_or, Bool.false_eq_true,
      ite_false] at hlay ⊢
    rw [hx i]
    exact length_foldl_layers _ _ hlay (hx i)

/-- C9 witness: a depth-1 stack with `dim_out = 1` maps a `[2, 1]`-shaped
input to feature length `1` at a concrete batch index, and a projection-free
depth-1 stack preserves the input feature length, both via `claim9_shapes`. -/
theorem claim9_shapes_witness :
    (nFeedforwards.init 1 1 none (some 1) 4 false 3 false none
        (PyVal.scalar none) (PyVal.scalar none) (PyVal.scalar none)
        (PyVal.scalar none) (PyVal.scalar 1) (PyVal.scalar 1) (PyVal.scalar 1)
        (PyVal.scalar 1) (fun _ _ _ => 1) (fun _ _ _ => 1) (fun _ _ _ => 1)
        (fun _ _ => 1) (fun _ _ => 1) =
      some (mkStack 1 1 none (some 1) 4 false 3 false none
        (List.replicate 1 none) (List.replicate 1 none) (List.replicate 1 1)
        (List.replicate 1 1) (List.replicate 1 1) (List.replicate 1 1)
        (fun _ _ _ => 1) (fun _ _ _ => 1) (fun _ _ _ => 1)
        (fun _ _ => 1) (fun _ _ => 1))) ∧
    ((mkStack 1 1 none (some 1) 4 false 3 false none
        (List.replicate 1 none) (List.replicate 1 none) (List.replicate 1 1)
        (List.replicate 1 1) (List.replicate 1 1) (List.replicate 1 1)
        (fun _ _ _ => 1) (fun _ _ _ => 1) (fun _ _ _ => 1)
        (fun _ _ => 1) (fun _ _ => 1)).forwardB
      ((fun _ => [(0 : ℝ)]) : BTensor [2]) ((0 : Fin 2), PUnit.unit)).length = 1 ∧
    ((mkStack 1 1 none none 4 false 3 false none
        (List.replicate 1 none) (List.replicate 1 none) (List.replicate 1 1)
        (List.replicate 1 1) (List.replicate 1 1) (List.replicate 1 1)
        (fun _ _ _ => 1) (fun _ _ _ => 1) (fun _ _ _ => 1)
        (fun _ _ => 1) (fun _ _ => 1)).forwardB
      ((fun _ => [(0 : ℝ)]) : BTensor [2]) ((0 : Fin 2), PUnit.unit)).length =
      ((fun _ : MIdx [2] => [(0 : ℝ)]) ((0 : Fin 2), PUnit.unit)).length := by
  refine ⟨rfl, ?_, ?_⟩
  · exact claim9_shapes.1 1 1 none 1 4 false 3 false none
      (PyVal.scalar none) (PyVal.scalar none) (PyVal.scalar none)
      (PyVal.scalar none) (PyVal.scalar 1) (PyVal.scalar 1) (PyVal.scalar 1)
      (PyVal.scalar 1) (fun _ _ _ => 1) (fun _ _ _ => 1) (fun _ _ _ => 1)
      (fun _ _ => 1) (fun _ _ => 1) _ [2] (fun _ => [(0 : ℝ)]) rfl
      ((0 : Fin 2), PUnit.unit)
  · exact claim9_shapes.2 1 1 4 3 false none
      (PyVal.scalar none) (PyVal.scalar none) (PyVal.scalar none)
      (PyVal.scalar none) (PyVal.scalar 1) (PyVal.scalar 1) (PyVal.scalar 1)
      (PyVal.scalar 1) (fun _ _ _ => 1) (fun _ _ _ => 1) (fun _ _ _ => 1)
      (fun _ _ => 1) (fun _ _ => 1) _ [2] (fun _ => [(0 : ℝ)]) rfl
      (fun _ => rfl) ((0 : Fin 2), PUnit.unit)

end XMlps
